import Mathlib

/-!
Verification of the vocabulary resolution and classification engine of
article-dryer (core-python). The definitions below are shallow embeddings of
the Python sources:
  * `WordProcessor.py`  — word normalizer (`normalize_word`, `_normalize_inflection`,
    `extract_words`),
  * `WordListLoader.py` — vocabulary store (`load_oxford_words`, `load_epv_words`,
    `load_user_words`, `word_exists_in_any_form`, `add_word_forms_to_map`,
    `save_words_to_user_file`),
  * `WordLevelClassifier.py` — classifier (`get_word_level`,
    `classify_unknown_words_with_llm` batching, `_classify_word_batch`),
  * `word_level_analyzer.py` / `TextLevelAnalyzerPlugin.py` — highlighted-text
    rendering (`create_highlighted_text`).
Strings are modelled as `String` / `List Char`; the Python dicts are modelled
as insertion-ordered association lists with Python-dict update semantics
(update-in-place for an existing key, append for a new one). All inputs of
interest are ASCII, and the character-class predicates below implement the
ASCII behaviour of Python's `str.lower`, `str.strip`, `\w`, `\s` and
`[a-zA-Z]`.
-/

namespace ArticleDryer

/-- Python `str.lower()` (ASCII). -/
def lowerStr (s : String) : String := String.mk (s.data.map Char.toLower)

/-- Python `str.upper()` (ASCII). -/
def upperStr (s : String) : String := String.mk (s.data.map Char.toUpper)

/-- Python whitespace for `str.strip()`: space, tab, newline, CR, VT, FF. -/
def isPySpace (c : Char) : Bool :=
  c == ' ' || c == '\t' || c == '\n' || c == '\r' || c == '\x0b' || c == '\x0c'

/-- Python `\w` on ASCII input: letters, digits and underscore. -/
def isWordCharPy (c : Char) : Bool := c.isAlphanum || c == '_'

/-- `[a-zA-Z]`. -/
def isAsciiLetter (c : Char) : Bool := c.isAlpha

/-- Strip leading and trailing characters satisfying `p` (Python `strip`). -/
def stripList (p : Char → Bool) (l : List Char) : List Char :=
  ((l.dropWhile p).reverse.dropWhile p).reverse

/-- Python `str.strip()` with no argument. -/
def pyStrip (s : String) : String := String.mk (stripList isPySpace s.data)

/-- Python `str.rstrip(chars)`: drop trailing characters belonging to `set`. -/
def rstripChars (l : List Char) (set : List Char) : List Char :=
  (l.reverse.dropWhile (fun c => set.contains c)).reverse

/-- `l` ends with `suf` (Python `str.endswith`). -/
def endsList (l suf : List Char) : Bool := suf.reverse.isPrefixOf l.reverse

/-- First-match lookup in a literal table (Python `word in map` / `map[word]`;
the tables below have distinct keys, so first match = dict lookup). -/
def mapLookup (m : List (String × String)) (k : String) : Option String :=
  (m.find? (fun p => p.1 == k)).map (fun p => p.2)

/-- `WordProcessor._create_contractions_map`. -/
def contractionsMap : List (String × String) := [
  ("aren't", "are not"), ("can't", "cannot"), ("couldn't", "could not"),
  ("didn't", "did not"), ("doesn't", "does not"), ("don't", "do not"),
  ("hadn't", "had not"), ("hasn't", "has not"), ("haven't", "have not"),
  ("he'd", "he would"), ("he'll", "he will"), ("he's", "he is"),
  ("i'd", "i would"), ("i'll", "i will"), ("i'm", "i am"), ("i've", "i have"),
  ("isn't", "is not"), ("it's", "it is"), ("let's", "let us"),
  ("mightn't", "might not"), ("mustn't", "must not"), ("shan't", "shall not"),
  ("she'd", "she would"), ("she'll", "she will"), ("she's", "she is"),
  ("shouldn't", "should not"), ("that's", "that is"), ("there's", "there is"),
  ("they'd", "they would"), ("they'll", "they will"), ("they're", "they are"),
  ("they've", "they have"), ("we'd", "we would"), ("we're", "we are"),
  ("we've", "we have"), ("weren't", "were not"), ("what'll", "what will"),
  ("what're", "what are"), ("what's", "what is"), ("what've", "what have"),
  ("where's", "where is"), ("who'd", "who would"), ("who'll", "who will"),
  ("who're", "who are"), ("who's", "who is"), ("who've", "who have"),
  ("won't", "will not"), ("wouldn't", "would not"), ("you'd", "you would"),
  ("you'll", "you will"), ("you're", "you are"), ("you've", "you have"),
  ("ain't", "am not"), ("could've", "could have"), ("gonna", "going to"),
  ("gotta", "got to"), ("i'ma", "i am going to"), ("might've", "might have"),
  ("must've", "must have"), ("should've", "should have"),
  ("that'd", "that would"), ("that'll", "that will"),
  ("there'd", "there would"), ("there'll", "there will"),
  ("they'd've", "they would have"), ("we'd've", "we would have"),
  ("would've", "would have"), ("y'all", "you all"),
  ("y'all'd", "you all would"), ("y'all'd've", "you all would have")]

/-- `WordProcessor._create_abbreviations_map` ("dept." appears twice in the
Python literal with the same value; the dict keeps a single binding). -/
def abbreviationsMap : List (String × String) := [
  ("dr.", "doctor"), ("mr.", "mister"), ("mrs.", "missus"), ("ms.", "miss"),
  ("prof.", "professor"), ("rev.", "reverend"), ("col.", "colonel"),
  ("gen.", "general"), ("lt.", "lieutenant"), ("sgt.", "sergeant"),
  ("capt.", "captain"), ("cmdr.", "commander"), ("govt.", "government"),
  ("dept.", "department"), ("univ.", "university"), ("corp.", "corporation"),
  ("inc.", "incorporated"), ("co.", "company"), ("ltd.", "limited"),
  ("approx.", "approximately"), ("appt.", "appointment"), ("apt.", "apartment"),
  ("assn.", "association"), ("asst.", "assistant"), ("avg.", "average"),
  ("bldg.", "building"), ("blvd.", "boulevard"), ("est.", "established"),
  ("etc.", "etcetera"), ("exec.", "executive"), ("fig.", "figure"),
  ("hrs.", "hours"), ("info.", "information"), ("intl.", "international"),
  ("jr.", "junior"), ("min.", "minutes"), ("misc.", "miscellaneous"),
  ("mtg.", "meeting"), ("natl.", "national"), ("orig.", "original"),
  ("pres.", "president"), ("ref.", "reference"), ("sec.", "second"),
  ("sr.", "senior"), ("yr.", "year"),
  ("u.s.a.", "united states of america"), ("u.k.", "united kingdom"),
  ("e.g.", "for example"), ("i.e.", "that is"),
  ("nasa", "national aeronautics and space administration"),
  ("nato", "north atlantic treaty organization"), ("un", "united nations"),
  ("eu", "european union"), ("fbi", "federal bureau of investigation"),
  ("cia", "central intelligence agency"), ("ceo", "chief executive officer"),
  ("cfo", "chief financial officer"), ("cto", "chief technology officer"),
  ("hr", "human resources"), ("id", "identification"),
  ("it", "information technology"), ("tv", "television"),
  ("pc", "personal computer"), ("asap", "as soon as possible")]

/-- `WordProcessor._create_slang_map`. -/
def slangMap : List (String × String) := [
  ("lol", "laugh out loud"), ("brb", "be right back"), ("btw", "by the way"),
  ("fyi", "for your information"), ("idk", "i do not know"),
  ("tbh", "to be honest"), ("imo", "in my opinion"),
  ("imho", "in my honest opinion"), ("thx", "thanks"), ("ty", "thank you"),
  ("pls", "please"), ("plz", "please"), ("rn", "right now"), ("yep", "yes"),
  ("nope", "no"), ("omg", "oh my goodness"), ("wtf", "what the heck"),
  ("rofl", "rolling on floor laughing"), ("fomo", "fear of missing out"),
  ("lemme", "let me"), ("gimme", "give me"), ("wanna", "want to"),
  ("dunno", "do not know"), ("kinda", "kind of"), ("sorta", "sort of"),
  ("outta", "out of"), ("hafta", "have to"), ("tryna", "trying to"),
  ("shoulda", "should have"), ("coulda", "could have"),
  ("woulda", "would have"), ("ya", "you"), ("goin", "going"),
  ("cuz", "because"), ("cause", "because"), ("bout", "about"),
  ("ima", "i am going to"), ("tonite", "tonight"), ("lite", "light"),
  ("thru", "through"), ("nite", "night"), ("tho", "though"), ("luv", "love"),
  ("em", "them"), ("bro", "brother"), ("ur", "your"), ("u", "you"),
  ("r", "are"), ("n", "and"), ("2", "to"), ("4", "for"), ("gr8", "great"),
  ("l8", "late"), ("l8r", "later"), ("b4", "before"), ("m8", "mate"),
  ("str8", "straight")]

/-! ### Inflection rules

Every pattern of `_create_inflection_rules` is anchored at the end of the
string (`$`), so `re.search`/`re.sub` find at most one (leftmost) match and
replace exactly that end-of-string occurrence. Each rule is rendered as a
function on the reversed character list returning `some` of the reversed
result when the pattern matches. -/

/-- A literal rule `pat$ → repl`. -/
def litRule (pat repl : String) (rev : List Char) : Option (List Char) :=
  if pat.data.reverse.isPrefixOf rev then
    some (repl.data.reverse ++ rev.drop pat.data.length)
  else none

/-- A rule `([class])suf$ → \1repl`: the single captured character before the
suffix must satisfy `inClass` and is kept. -/
def classRule (inClass : Char → Bool) (suf repl : String) (rev : List Char) :
    Option (List Char) :=
  if suf.data.reverse.isPrefixOf rev then
    match rev.drop suf.data.length with
    | c :: rest => if inClass c then some (repl.data.reverse ++ c :: rest) else none
    | [] => none
  else none

def vowels : List Char := ['a', 'e', 'i', 'o', 'u']

/-- `([aeiou]y)s$ → \1` (boys → boy). -/
def vowelYsRule (rev : List Char) : Option (List Char) :=
  match rev with
  | 's' :: 'y' :: v :: rest =>
    if vowels.contains v then some ('y' :: v :: rest) else none
  | _ => none

/-- `(ss|[sxz]|[cs]h)es$ → \1` (glasses → glass, boxes → box). The leftmost
match takes a two-character group (`ss`, `ch`, `sh`) when possible, otherwise a
single `[sxz]`; in every case the trailing `es` is dropped. -/
def pluralEsRule (rev : List Char) : Option (List Char) :=
  match rev with
  | 's' :: 'e' :: b :: a :: rest =>
    if (a == 's' && b == 's') || ((a == 'c' || a == 's') && b == 'h') then
      some (b :: a :: rest)
    else if b == 's' || b == 'x' || b == 'z' then some (b :: a :: rest)
    else none
  | 's' :: 'e' :: [b] =>
    if b == 's' || b == 'x' || b == 'z' then some [b] else none
  | _ => none

/-- `([aeiou][pst])s$ → \1` (stops → stop). -/
def vowelPstRule (rev : List Char) : Option (List Char) :=
  match rev with
  | 's' :: p :: v :: rest =>
    if (p == 'p' || p == 's' || p == 't') && vowels.contains v then
      some (p :: v :: rest)
    else none
  | _ => none

/-- `inflection_rules["plural_to_singular"]`, in source order. -/
def pluralRules : List (List Char → Option (List Char)) := [
  classRule (fun c => !(vowels.contains c)) "ies" "y",
  vowelYsRule,
  pluralEsRule,
  classRule (fun c => !(c == 's')) "ves" "fe",
  litRule "ves" "f",
  litRule "i" "us",
  litRule "ae" "a",
  litRule "a" "on",
  litRule "children" "child",
  litRule "oxen" "ox",
  classRule (fun c => c == 'm' || c == 'l') "ice" "ouse",
  litRule "feet" "foot",
  litRule "teeth" "tooth",
  litRule "geese" "goose",
  litRule "men" "man",
  litRule "women" "woman",
  litRule "people" "person",
  litRule "s" ""]

/-- `inflection_rules["verb_to_base"]`, in source order. -/
def verbRules : List (List Char → Option (List Char)) := [
  classRule (fun c => !(vowels.contains c)) "ied" "y",
  classRule (fun c => vowels.contains c) "ied" "y",
  classRule (fun c => !(c == 'e')) "ing" "",
  litRule "ying" "y",
  litRule "eing" "e",
  classRule (fun c => !(c == 'e')) "ed" "",
  litRule "eed" "ee",
  litRule "ies" "y",
  classRule (fun c => !(c == 'a' || c == 'i' || c == 'o' || c == 'u')) "es" "e",
  vowelPstRule,
  litRule "is" "be",
  litRule "are" "be",
  litRule "was" "be",
  litRule "were" "be",
  litRule "am" "be",
  litRule "been" "be",
  litRule "has" "have",
  litRule "had" "have",
  litRule "does" "do",
  litRule "did" "do",
  litRule "said" "say",
  litRule "made" "make",
  litRule "went" "go",
  litRule "taken" "take",
  litRule "took" "take",
  litRule "gave" "give",
  litRule "given" "give",
  litRule "came" "come",
  litRule "became" "become",
  litRule "saw" "see",
  litRule "seen" "see",
  litRule "knew" "know",
  litRule "known" "know"]

/-- `inflection_rules["comparative_to_base"]`, in source order. -/
def comparativeRules : List (List Char → Option (List Char)) := [
  classRule (fun c => !(vowels.contains c)) "ier" "y",
  classRule (fun c => vowels.contains c) "ier" "y",
  classRule (fun c => !(vowels.contains c)) "iest" "y",
  classRule (fun c => vowels.contains c) "iest" "y",
  classRule (fun c => (vowels ++ ['l', 'm', 'n', 'r']).contains c) "er" "e",
  classRule (fun c => !(c == 'e')) "er" "",
  classRule (fun c => (vowels ++ ['l', 'm', 'n', 'r']).contains c) "est" "e",
  classRule (fun c => !(c == 'e')) "est" "",
  litRule "better" "good",
  litRule "best" "good",
  litRule "worse" "bad",
  litRule "worst" "bad",
  litRule "more" "many",
  litRule "most" "many",
  litRule "less" "little",
  litRule "least" "little"]

/-- Apply the first matching rule (`for pattern, replacement in rules: ... break`). -/
def tryRules : List (List Char → Option (List Char)) → List Char → Option (List Char)
  | [], _ => none
  | r :: rs, rev =>
    match r rev with
    | some out => some out
    | none => tryRules rs rev

/-- `WordProcessor._normalize_inflection`: plural rules first; if they changed
the word, return; otherwise verb rules; otherwise comparative rules. -/
def normalizeInflection (w : String) : String :=
  let rev := w.data.reverse
  let p := (tryRules pluralRules rev).getD rev
  if p ≠ rev then String.mk p.reverse
  else
    let v := (tryRules verbRules rev).getD rev
    if v ≠ rev then String.mk v.reverse
    else
      let c := (tryRules comparativeRules rev).getD rev
      String.mk c.reverse

/-- Abbreviation step of `normalize_word` (checked with and without trailing
periods: `word_no_period = word.rstrip('.')`). -/
def applyAbbrev (w : String) : String :=
  let noPeriod := String.mk (rstripChars w.data ['.'])
  match mapLookup abbreviationsMap w with
  | some v => v
  | none => (mapLookup abbreviationsMap noPeriod).getD w

/-- Contraction step of `normalize_word`. -/
def applyContraction (w : String) : String := (mapLookup contractionsMap w).getD w

/-- Slang step of `normalize_word`. -/
def applySlang (w : String) : String := (mapLookup slangMap w).getD w

/-- Possessive step of `normalize_word`: when the word ends in `'s` or `'`,
Python runs `word.rstrip("'s").rstrip("'")` (note `rstrip` removes *all*
trailing characters from the set). -/
def applyPossessive (w : String) : String :=
  if endsList w.data ['\'', 's'] || endsList w.data ['\''] then
    String.mk (rstripChars (rstripChars w.data ['\'', 's']) ['\''])
  else w

/-- Hyphen step: `word.replace('-', ' ')`. -/
def replaceHyphens (w : String) : String :=
  String.mk (w.data.map (fun c => if c == '-' then ' ' else c))

/-- Final character strip: `re.sub(r'[^\w\s]', '', word)`. -/
def stripPunct (w : String) : String :=
  String.mk (w.data.filter (fun c => isWordCharPy c || isPySpace c))

/-- `WordProcessor.normalize_word`. -/
def normalize_word (w : String) : String :=
  if w == "" then ""
  else
    let w1 := pyStrip (lowerStr w)
    let w2 := applyAbbrev w1
    let w3 := applyContraction w2
    let w4 := applySlang w3
    let w5 := applyPossessive w4
    let w6 := replaceHyphens w5
    let w7 := normalizeInflection w6
    let w8 := stripPunct w7
    pyStrip w8

/-! ### Word extraction and whole-word matching

`extract_words` uses `re.findall(r'\b[a-zA-Z]+\b', text)` and
`create_highlighted_text` uses `re.sub(r'\b' + re.escape(word) + r'\b', ...)`.
A `\b` boundary separates a `\w` character from a non-`\w` character (or a
string end), so for a pattern consisting solely of word characters a match is
exactly a *maximal* run of `\w` characters of the right shape. We therefore
split a text into maximal runs of `\w` characters and separators. -/

/-- Structural worker for `splitRuns`; any `fuel ≥ cs.length` gives the same
result (each step consumes at least one character). -/
def splitRunsGo : Nat → List Char → List (Bool × List Char)
  | _, [] => []
  | 0, _ :: _ => []
  | fuel + 1, c :: cs' =>
    let run := cs'.takeWhile (fun x => isWordCharPy x == isWordCharPy c)
    (isWordCharPy c, c :: run) :: splitRunsGo fuel (cs'.drop run.length)

/-- Split into maximal runs: `(true, run)` is a maximal run of `\w`
characters, `(false, run)` a maximal run of non-`\w` characters. -/
def splitRuns (cs : List Char) : List (Bool × List Char) :=
  splitRunsGo cs.length cs

/-- `WordProcessor.extract_words`: `re.findall(r'\b[a-zA-Z]+\b', text)`. A
maximal `\w` run matches iff it consists solely of ASCII letters (a letter run
glued to a digit or underscore has no `\b` on that side and yields nothing). -/
def extract_words (text : String) : List String :=
  (splitRuns text.data).filterMap (fun seg =>
    if seg.1 && seg.2.all isAsciiLetter then some (String.mk seg.2) else none)

/-- Reading of the claim "apostrophes, hyphens, digits and other characters
act as separators": split on non-letters and return every maximal ASCII-letter
run. Used only to compare the claim's wording with `extract_words`. -/
def extractWordsSpecSeparators (text : String) : List String :=
  (splitLetterRunsGo text.data.length text.data).filterMap (fun seg =>
    if seg.1 then some (String.mk seg.2) else none)
where
  splitLetterRunsGo : Nat → List Char → List (Bool × List Char)
    | _, [] => []
    | 0, _ :: _ => []
    | fuel + 1, c :: cs' =>
      let run := cs'.takeWhile (fun x => isAsciiLetter x == isAsciiLetter c)
      (isAsciiLetter c, c :: run) :: splitLetterRunsGo fuel (cs'.drop run.length)

/-! ### Python dicts as insertion-ordered association lists -/

/-- Python `d[k]` / `d.get(k)`. -/
def dictGet {α : Type} : List (String × α) → String → Option α
  | [], _ => none
  | (k', v) :: rest, k => if k' = k then some v else dictGet rest k

/-- Python `d[k] = v`: update in place when the key exists (keeping its
position), append otherwise. -/
def dictSet {α : Type} : List (String × α) → String → α → List (String × α)
  | [], k, v => [(k, v)]
  | (k', v') :: rest, k, v =>
    if k' = k then (k', v) :: rest else (k', v') :: dictSet rest k v

/-- Python `k in d`. -/
def dictHasKey {α : Type} (d : List (String × α)) (k : String) : Bool :=
  d.any (fun p => p.1 == k)

/-! ### Data model -/

/-- A vocabulary entry as stored in `word_map` / the user file: the spec's
`LevelEntry` `{word, level, source, explanation?}`. -/
structure LevelEntry where
  word : String
  level : String
  source : String
  explanation : Option String
deriving DecidableEq, Repr

/-! ### WordListLoader (`WordListLoader.py`) -/

/-- `WordLists`: the combined vocabulary (`word_map` plus the per-level CEFR
sets). `cefr` always has exactly the keys a1..c2 and unknown. -/
structure WordLists where
  word_map : List (String × LevelEntry)
  cefr : List (String × List String)
deriving DecidableEq, Repr

/-- A fresh `WordLists()`. -/
def emptyWordLists : WordLists :=
  ⟨[], [("a1", []), ("a2", []), ("b1", []), ("b2", []), ("c1", []),
        ("c2", []), ("unknown", [])]⟩

/-- `level in word_lists.cefr` (membership among the dict's keys). -/
def hasCefrKey (wl : WordLists) (level : String) : Bool :=
  wl.cefr.any (fun p => p.1 == level)

/-- `word_lists.cefr[level].add(word)` (set add). -/
def cefrAdd (wl : WordLists) (level word : String) : WordLists :=
  { wl with
    cefr := wl.cefr.map (fun p =>
      if p.1 = level then (p.1, if p.2.contains word then p.2 else p.2 ++ [word])
      else p) }

/-- `s.replace(" ", "")`. -/
def removeSpaces (s : String) : String :=
  String.mk (s.data.filter (fun c => !(c == ' ')))

/-- `WordListLoader.word_exists_in_any_form`: base form, normalized form, or
normalized form compared without spaces against every existing key. -/
def word_exists_in_any_form (word : String) (wl : WordLists) : Bool :=
  if dictHasKey wl.word_map (lowerStr word) then true
  else
    let normalized := normalize_word word
    if dictHasKey wl.word_map normalized then true
    else
      let noSpaces := removeSpaces normalized
      wl.word_map.any (fun p => removeSpaces p.1 == noSpaces)

/-- `WordListLoader.add_word_forms_to_map`: register the entry under the
lower-cased original form, and under the normalized form when distinct. -/
def add_word_forms_to_map (word : String) (value : LevelEntry) (wl : WordLists) :
    WordLists :=
  let wordLower := lowerStr word
  let m := dictSet wl.word_map wordLower value
  let normalized := normalize_word word
  let m :=
    if normalized ≠ "" ∧ normalized ≠ wordLower then dictSet m normalized value
    else m
  { wl with word_map := m }

/-- One CSV row of `load_epv_words`: rows with fewer than 2 columns are
skipped; the level must be a key of `cefr`; a word already present in any form
is not overridden; otherwise the entry `{word, level.upper(), source: "epv"}`
is added to the CEFR set and registered under its forms. -/
def load_epv_row (wl : WordLists) (row : List String) : WordLists :=
  match row with
  | r0 :: r1 :: _ =>
    let word := lowerStr (pyStrip r0)
    let level := lowerStr (pyStrip r1)
    if !(hasCefrKey wl level) then wl
    else if word_exists_in_any_form word wl then wl
    else
      let value : LevelEntry := ⟨word, upperStr level, "epv", none⟩
      let wl := cefrAdd wl level (lowerStr word)
      add_word_forms_to_map word value wl
  | _ => wl

/-- `WordListLoader.load_epv_words`, applied to the parsed CSV rows. -/
def load_epv_words (rows : List (List String)) (wl : WordLists) : WordLists :=
  rows.foldl load_epv_row wl

/-- A parsed JSON entry of the Oxford / user word files: either
`{"value": {...}}`, a direct `{"word": ..., "level": ...}` object, or
anything else (skipped). -/
inductive RawWordEntry where
  | nested (value : LevelEntry)
  | flat (value : LevelEntry)
  | other
deriving DecidableEq, Repr

/-- Shared body of `load_oxford_words` and `load_user_words`: extract word and
level, skip empty words and unrecognized levels, add to the CEFR set and
register the whole entry under its forms — with no exists-in-any-form check. -/
def processJsonWordEntry (wl : WordLists) (e : RawWordEntry) : WordLists :=
  match e with
  | .other => wl
  | .nested v | .flat v =>
    let word := v.word
    let level := lowerStr v.level
    if word == "" then wl
    else if !(hasCefrKey wl level) then wl
    else
      let wl := cefrAdd wl level (lowerStr word)
      add_word_forms_to_map word v wl

/-- `WordListLoader.load_oxford_words` applied to the parsed JSON entries. -/
def load_oxford_words (entries : List RawWordEntry) (wl : WordLists) : WordLists :=
  entries.foldl processJsonWordEntry wl

/-- `WordListLoader.load_user_words` applied to the parsed JSON entries (the
processing is identical to the Oxford loader: in particular there is no
priority check against already-present entries). -/
def load_user_words (entries : List RawWordEntry) (wl : WordLists) : WordLists :=
  entries.foldl processJsonWordEntry wl

/-! ### save_words_to_user_file (`WordListLoader.py` lines 259-307) -/

/-- The state of the persisted user-words file: missing, unparseable JSON, or
a parsed array whose items are entries (dicts with a "word" key) or junk. -/
inductive UserFileState where
  | missing
  | corrupt
  | content (items : List (Option LevelEntry))
deriving DecidableEq, Repr

/-- The items read from the file: a missing file and a `json.JSONDecodeError`
both yield the empty list. -/
def userFileItems : UserFileState → List (Option LevelEntry)
  | .missing => []
  | .corrupt => []
  | .content items => items

/-- `existing_dict`: fold the file items into a dict keyed by the lower-cased
word; non-dict items and items without a "word" key (`none`) are skipped. -/
def buildExistingDict (items : List (Option LevelEntry)) :
    List (String × LevelEntry) :=
  items.foldl (fun d i =>
    match i with
    | some e => dictSet d (lowerStr e.word) e
    | none => d) []

/-- The merged dict: existing entries first, then
`existing_dict[word.lower()] = data` for each new pair. -/
def mergedUserDict (file : UserFileState) (wordsData : List (String × LevelEntry)) :
    List (String × LevelEntry) :=
  wordsData.foldl (fun d p => dictSet d (lowerStr p.1) p.2)
    (buildExistingDict (userFileItems file))

/-- `WordListLoader.save_words_to_user_file`: returns whether the save
succeeded, and the written list (`list(existing_dict.values())`) on success.
`writeOk` models whether the file write raises; the exception is caught and
turned into `False`. -/
def save_words_to_user_file (file : UserFileState)
    (wordsData : List (String × LevelEntry)) (writeOk : Bool) :
    Bool × Option (List LevelEntry) :=
  let updated := (mergedUserDict file wordsData).map (fun p => p.2)
  if writeOk then (true, some updated) else (false, none)

/-! ### WordLevelClassifier (`WordLevelClassifier.py`) -/

/-- Result of `get_word_level`: a `word_map` entry, or the literal dict
`{"word": word, "level": "unknown", "needs_llm_classification": True}`. -/
inductive WordLevelResult where
  | entry (e : LevelEntry)
  | unknownNeedsLlm (word : String)
deriving DecidableEq, Repr

/-- The `"level"` field of the result. -/
def WordLevelResult.level : WordLevelResult → String
  | .entry e => e.level
  | .unknownNeedsLlm _ => "unknown"

/-- The `"needs_llm_classification"` field (absent on map entries, whose
dicts never carry the key). -/
def WordLevelResult.needsLlmClassification : WordLevelResult → Bool
  | .entry _ => false
  | .unknownNeedsLlm _ => true

/-- `WordLevelClassifier.get_word_level`. `processWord` is the morphological
capability `word_processor.process_word(word, mode)` for the modes "lemma",
"stem" and "token". Modelled from the spec: the spec (§4.1) makes the
lemma/stem/token forms the product of a pluggable morphological-analysis
capability; `process_word` is called here and in the repository's tests but no
definition of it is under src/, so it is an abstract parameter. -/
def get_word_level (wordMap : List (String × LevelEntry))
    (processWord : String → String → String) (word : String) : WordLevelResult :=
  let normalized := normalize_word word
  match dictGet wordMap normalized with
  | some e => .entry e
  | none =>
    match dictGet wordMap (processWord normalized "lemma") with
    | some e => .entry e
    | none =>
      match dictGet wordMap (processWord normalized "stem") with
      | some e => .entry e
      | none =>
        match dictGet wordMap (processWord normalized "token") with
        | some e => .entry e
        | none => .unknownNeedsLlm word

/-- The batches formed by `classify_unknown_words_with_llm`
(`for i in range(0, len(unknown_words), batch_size)` with `batch_size = 10`):
consecutive slices of 10 words, the last possibly shorter. Each batch is
passed to one `_classify_word_batch` call. -/
def llmBatches (ws : List String) : List (List String) :=
  if _h : ws = [] then []
  else ws.take 10 :: llmBatches (ws.drop 10)
termination_by ws.length
decreasing_by
  have : ws.length ≠ 0 := fun hn => _h (List.length_eq_zero.mp hn)
  simp only [List.length_drop]
  omega

/-- Per-word data parsed from the LLM's JSON response: `data.get("level", "")`
and `data.get("explanation", "")` read optional fields. -/
structure LlmWordData where
  level : Option String
  explanation : Option String
deriving DecidableEq, Repr

/-- A formatted classification produced by `_classify_word_batch`. The
`explanation` key is absent (`none`) in the error-default entries. -/
structure ClassifiedWord where
  word : String
  level : String
  explanation : Option String
  source : String
deriving DecidableEq, Repr

/-- The recognized CEFR level strings (`['a1','a2','b1','b2','c1','c2']`). -/
def validCefrLevels : List String := ["a1", "a2", "b1", "b2", "c1", "c2"]

/-- The batch-level failure default:
`{word.lower(): {"word": word.lower(), "level": "C1", "source": "default"} for word in words}`. -/
def defaultC1Batch (words : List String) : List (String × ClassifiedWord) :=
  words.foldl (fun d w =>
    dictSet d (lowerStr w) ⟨lowerStr w, "C1", none, "default"⟩) []

/-- `response.replace('\n', '')`. -/
def stripNewlines (s : String) : String :=
  String.mk (s.data.filter (fun c => !(c == '\n')))

/-- `re.search(r'({.*})', s)`: the leftmost `{`, greedily matched up to the
last `}` after it; `none` when no such block exists. -/
def extractJsonBlock (s : String) : Option String :=
  let cs := s.data
  let pre := cs.takeWhile (fun c => !(c == '{'))
  match cs.drop pre.length with
  | [] => none
  | brace :: tail =>
    let afterLast := tail.reverse.takeWhile (fun c => !(c == '}'))
    if afterLast.length = tail.length then none
    else some (String.mk (brace :: tail.take (tail.length - afterLast.length)))

/-- The entry built for a recognized per-word result, and the per-word default
for an unrecognized level string, as in `_classify_word_batch` lines 155-170. -/
def formatOneWord (w : String) (data : LlmWordData) : ClassifiedWord :=
  let level := lowerStr (data.level.getD "")
  if validCefrLevels.contains level then
    ⟨lowerStr w, upperStr (data.level.getD ""), some (data.explanation.getD ""), "llm"⟩
  else
    ⟨lowerStr w, "C1", some "Level not recognized, defaulting to C1", "llm"⟩

/-- The `formatted_results` loop: response words not in the request batch
(case-insensitive) are ignored; the rest are formatted per word. -/
def formatBatchResults (words : List String)
    (parsed : List (String × LlmWordData)) : List (String × ClassifiedWord) :=
  parsed.foldl (fun acc p =>
    if (words.map lowerStr).contains (lowerStr p.1) then
      dictSet acc (lowerStr p.1) (formatOneWord p.1 p.2)
    else acc) []

/-- `WordLevelClassifier._classify_word_batch`, over the outcome of the remote
call. `response` is `.error` when `llm_client.generate_text` raises (any
transport failure), and the text otherwise; `parse` models `json.loads` plus
reading the items of the resulting object — `.error` when it raises (malformed
JSON inside the braces). Every failure is caught and yields the C1 default for
the whole batch; the function always returns a map, never an exception. -/
def classify_word_batch (words : List String) (response : Except Unit String)
    (parse : String → Except Unit (List (String × LlmWordData))) :
    List (String × ClassifiedWord) :=
  match response with
  | .error _ => defaultC1Batch words
  | .ok resp =>
    match extractJsonBlock (stripNewlines resp) with
    | none => defaultC1Batch words
    | some jsonStr =>
      match parse jsonStr with
      | .error _ => defaultC1Batch words
      | .ok parsed => formatBatchResults words parsed

/-! ### Highlighted-text rendering (`create_highlighted_text`, identical in
`word_level_analyzer.py` and `TextLevelAnalyzerPlugin.py`) -/

/-- The level→color map of `create_highlighted_text`. -/
def colorMap : List (String × String) := [
  ("a1", "#28a745"), ("a2", "#5cb85c"), ("b1", "#ffc107"), ("b2", "#fd7e14"),
  ("c1", "#dc3545"), ("c2", "#9c27b0"), ("unknown", "#6c757d")]

/-- Stable insertion of `w` into a list sorted by decreasing length, after all
strictly longer elements and before equal-length ones that originally came
later. -/
def insertLenDesc (w : String) : List String → List String
  | [] => [w]
  | x :: xs => if w.length < x.length then x :: insertLenDesc w xs else w :: x :: xs

/-- `sorted(word_levels.keys(), key=len, reverse=True)`: a stable sort by
decreasing length (Python's `sorted` is stable, and a stable sort is uniquely
determined by its comparator, so this insertion sort computes the same list). -/
def sortLenDesc : List String → List String
  | [] => []
  | w :: ws => insertLenDesc w (sortLenDesc ws)

/-- The effect of `re.sub(r'\b' + re.escape(word) + r'\b', repl, ·, re.IGNORECASE)`
on one maximal run: a `\w` run equal to the word case-insensitively is replaced
by `repl`, every other run is untouched. -/
def replaceSeg (word repl : String) (seg : Bool × List Char) : List Char :=
  if seg.1 && (String.mk (seg.2.map Char.toLower) == lowerStr word) then repl.data
  else seg.2

/-- One `re.sub(r'\b' + re.escape(word) + r'\b', repl, text, re.IGNORECASE)`
step for a non-empty all-word-character `word`: exactly the maximal `\w` runs
equal to the word (case-insensitively) are replaced by `repl`. -/
def replaceWholeWord (word repl : String) (text : String) : String :=
  String.mk (((splitRuns text.data).map (replaceSeg word repl)).flatten)

/-- The replacement span
`f'<span style="color:{color}" title="{level.upper()}">{word}</span>'`. -/
def spanFor (wordLevels : List (String × String)) (word : String) : String :=
  let level0 := lowerStr ((dictGet wordLevels word).getD "unknown")
  let level := if dictHasKey colorMap level0 then level0 else "unknown"
  let color := (dictGet colorMap level).getD ""
  "<span style=\"color:" ++ color ++ "\" title=\"" ++ upperStr level ++ "\">"
    ++ word ++ "</span>"

/-- `create_highlighted_text`: words sorted longest-first, each replacing its
whole-word occurrences in the accumulating HTML text. `wordLevels` maps each
word to the `"level"` field of its info dict. -/
def create_highlighted_text (text : String) (wordLevels : List (String × String)) :
    String :=
  (sortLenDesc (wordLevels.map (fun p => p.1))).foldl
    (fun t w => replaceWholeWord w (spanFor wordLevels w) t) text

/-! ### Auxiliary definitions for the theorems below -/

/-- The last value written for key `k` by a sequence of `d[key b] = val b`
updates. -/
def lastWrite {β α : Type} (key : β → String) (val : β → α) :
    List β → String → Option α
  | [], _ => none
  | b :: bs, k =>
    (lastWrite key val bs k).or (if key b = k then some (val b) else none)

/-- The last value written for key `k` by a sequence of conditional
`d[key b] = val b` updates. -/
def lastWriteIf {β α : Type} (cond : β → Bool) (key : β → String) (val : β → α) :
    List β → String → Option α
  | [], _ => none
  | b :: bs, k =>
    (lastWriteIf cond key val bs k).or
      (if cond b = true ∧ key b = k then some (val b) else none)

/-- 23 distinct words, for the witness below. -/
def c7Words : List String :=
  ["a", "b", "c", "d", "e", "f", "g", "h", "i", "j", "k", "l", "m", "n", "o",
   "p", "q", "r", "s", "t", "u", "v", "w"]

/-- Concrete batch for the C6 scenario: two requested words. -/
def c6Words : List String := ["alpha", "beta"]

/-- Concrete parsed response: "alpha" reports the unrecognized level "Z9",
"beta" the recognized level "b1". -/
def c6Parsed : List (String × LlmWordData) :=
  [("alpha", ⟨some "Z9", some "strange"⟩), ("beta", ⟨some "b1", some "common"⟩)]

/-- A `json.loads` behaviour producing `c6Parsed`. -/
def c6Parse : String → Except Unit (List (String × LlmWordData)) :=
  fun _ => .ok c6Parsed

/-- The result of `_classify_word_batch` on the C6 scenario (the response text
contains a JSON block). -/
def c6Out : List (String × ClassifiedWord) :=
  classify_word_batch c6Words (.ok "\x7bx\x7d") c6Parse

/-- A primary (Oxford) load containing "hello" at level A1. -/
def c4Primary : WordLists :=
  load_oxford_words [.flat ⟨"hello", "A1", "oxford", none⟩] emptyWordLists

/-- The same store after the user/LLM-learned source reports "hello" at C2. -/
def c4AfterUser : WordLists :=
  load_user_words [.flat ⟨"hello", "C2", "llm", none⟩] c4Primary

/-! ## Dictionary lemmas -/

theorem dictGet_dictSet {α : Type} (d : List (String × α)) (k' k : String) (v : α) :
    dictGet (dictSet d k' v) k = if k' = k then some v else dictGet d k := by
  induction d with
  | nil => simp [dictGet, dictSet]
  | cons p rest ih =>
    obtain ⟨pk, pv⟩ := p
    simp only [dictSet]
    by_cases h : pk = k'
    · rw [if_pos h]
      subst h
      simp only [dictGet]
      by_cases h2 : pk = k
      · rw [if_pos h2, if_pos h2]
      · rw [if_neg h2, if_neg h2, if_neg h2]
    · rw [if_neg h]
      simp only [dictGet]
      by_cases h2 : pk = k
      · rw [if_pos h2, if_neg (fun he => h (h2.trans he.symm)), if_pos h2]
      · rw [if_neg h2, ih, if_neg h2]

theorem dictHasKey_of_get {α : Type} :
    ∀ (d : List (String × α)) (k : String) (v : α),
      dictGet d k = some v → dictHasKey d k = true := by
  intro d k v
  induction d with
  | nil =>
    intro h
    simp [dictGet] at h
  | cons p rest ih =>
    intro h
    obtain ⟨pk, pv⟩ := p
    simp only [dictGet] at h
    by_cases hk : pk = k
    · simp [dictHasKey, List.any_cons, hk]
    · rw [if_neg hk] at h
      have hr := ih h
      simp only [dictHasKey, List.any_cons, Bool.or_eq_true]
      exact Or.inr (by simpa [dictHasKey] using hr)

theorem dictGet_foldl_set {β α : Type} (key : β → String) (val : β → α)
    (bs : List β) (d : List (String × α)) (k : String) :
    dictGet (bs.foldl (fun d b => dictSet d (key b) (val b)) d) k =
      (lastWrite key val bs k).or (dictGet d k) := by
  induction bs generalizing d with
  | nil => rfl
  | cons b bs ih =>
    simp only [List.foldl_cons, lastWrite, ih, dictGet_dictSet]
    cases lastWrite key val bs k with
    | some v => rfl
    | none =>
      by_cases h : key b = k
      · simp [h, Option.or]
      · simp [h, Option.or]

theorem lastWrite_comp_key {β α : Type} (key : β → String) (g : String → α)
    (bs : List β) (k : String) (v : α)
    (h : lastWrite key (fun b => g (key b)) bs k = some v) : v = g k := by
  induction bs with
  | nil => simp [lastWrite] at h
  | cons b bs ih =>
    simp only [lastWrite] at h
    cases hbs : lastWrite key (fun b => g (key b)) bs k with
    | some v' =>
      rw [hbs] at h
      simp only [Option.or] at h
      exact ih (hbs.trans (by rw [h]))
    | none =>
      rw [hbs] at h
      simp only [Option.or] at h
      by_cases hk : key b = k
      · rw [if_pos hk] at h
        injection h with h
        rw [← h, hk]
      · rw [if_neg hk] at h
        exact absurd h (by simp)

theorem lastWrite_isSome_of_mem {β α : Type} (key : β → String) (val : β → α)
    (bs : List β) (k : String) (b0 : β) (hmem : b0 ∈ bs) (hk : key b0 = k) :
    (lastWrite key val bs k).isSome = true := by
  induction bs with
  | nil => simp at hmem
  | cons b bs ih =>
    simp only [lastWrite]
    cases hbs : lastWrite key val bs k with
    | some v => simp [Option.or]
    | none =>
      rcases List.mem_cons.mp hmem with hb | hb
      · subst hb
        simp [Option.or, hk]
      · have := ih hb
        rw [hbs] at this
        simp at this

/-! ## C2: idempotence of the normalizer -/

/-- C2 (counterexample): the claim `normalize(normalize(w)) == normalize(w)`
for all `w` is false: `normalize("buses") = "bus"` (plural `es` rule), but
`normalize("bus") = "bu"` (the general `s$ → ""` plural rule fires again). -/
theorem normalize_word_not_idempotent :
    normalize_word "buses" = "bus" ∧ normalize_word "bus" = "bu" ∧
    normalize_word (normalize_word "buses") ≠ normalize_word "buses" := by
  refine ⟨by decide, by decide, by decide⟩

/-- Helper for C2: when every individual step of `normalize_word` fixes `v`,
`normalize_word` fixes `v`. -/
theorem normalize_word_fixed (v : String)
    (h1 : pyStrip (lowerStr v) = v)
    (h2 : applyAbbrev v = v)
    (h3 : applyContraction v = v)
    (h4 : applySlang v = v)
    (h5 : applyPossessive v = v)
    (h6 : replaceHyphens v = v)
    (h7 : normalizeInflection v = v)
    (h8 : stripPunct v = v)
    (h9 : pyStrip v = v) :
    normalize_word v = v := by
  by_cases he : v = ""
  · subst he
    rfl
  · unfold normalize_word
    rw [if_neg (by simpa using he)]
    simp only [h1, h2, h3, h4, h5, h6, h7, h8, h9]

/-- C2 (amended): the normalizer is not idempotent in general
(`normalize("buses") = "bus"` but `normalize("bus") = "bu"`); a second
application does leave the result unchanged whenever each individual
normalization step (lower/strip, abbreviation, contraction, slang, possessive,
hyphen, inflection, punctuation strip, final strip) already fixes the first
application's output — a sufficient condition. -/
theorem normalize_word_idempotent_of_steps_fixed (w : String)
    (h1 : pyStrip (lowerStr (normalize_word w)) = normalize_word w)
    (h2 : applyAbbrev (normalize_word w) = normalize_word w)
    (h3 : applyContraction (normalize_word w) = normalize_word w)
    (h4 : applySlang (normalize_word w) = normalize_word w)
    (h5 : applyPossessive (normalize_word w) = normalize_word w)
    (h6 : replaceHyphens (normalize_word w) = normalize_word w)
    (h7 : normalizeInflection (normalize_word w) = normalize_word w)
    (h8 : stripPunct (normalize_word w) = normalize_word w)
    (h9 : pyStrip (normalize_word w) = normalize_word w) :
    normalize_word (normalize_word w) = normalize_word w :=
  normalize_word_fixed (normalize_word w) h1 h2 h3 h4 h5 h6 h7 h8 h9

/-- Witness for C2's amended theorem at `w = "Don't"` (whose normalization
"do not" is fixed by every step). -/
theorem normalize_word_idempotent_of_steps_fixed_witness :
    normalize_word (normalize_word "Don't") = normalize_word "Don't" :=
  normalize_word_idempotent_of_steps_fixed "Don't" (by decide) (by decide)
    (by decide) (by decide) (by decide) (by decide) (by decide) (by decide)
    (by decide)

/-! ## C3: the four normalization scenarios -/

/-- C3 (counterexample): the claim states `normalize("self-driving") ==
"self drive"`, but the verb rule `([^e])ing$ → \1` keeps only the consonant
before `ing`, giving "self driv". -/
theorem normalize_word_self_driving_cex :
    normalize_word "self-driving" = "self driv" ∧
    normalize_word "self-driving" ≠ "self drive" := by
  refine ⟨by decide, by decide⟩

/-- C3 (amended): the scenario outputs of the normalizer are
`don't ↦ do not`, `children's ↦ child`, `happiest ↦ happy`, and
`self-driving ↦ self driv` (hyphen split followed by the `([^e])ing$ → \1`
verb rule, which does not restore an "e"). -/
theorem normalize_word_scenarios :
    normalize_word "don't" = "do not" ∧
    normalize_word "children's" = "child" ∧
    normalize_word "happiest" = "happy" ∧
    normalize_word "self-driving" = "self driv" := by
  refine ⟨by decide, by decide, by decide, by decide⟩

/-! ## C7: batching of the unknown-word list -/

theorem llmBatches_nil : llmBatches ([] : List String) = [] := by
  rw [llmBatches]
  rfl

theorem llmBatches_cons (ws : List String) (h : ws ≠ []) :
    llmBatches ws = ws.take 10 :: llmBatches (ws.drop 10) := by
  rw [llmBatches]
  exact dif_neg h

/-- C7: a list of 23 unknown words is cut into exactly 3 batches of sizes 10,
10 and 3, in order; the batches concatenate back to the input (joint cover),
and when the input has no duplicates the batches are pairwise disjoint. Each
batch is one `_classify_word_batch` call of `classify_unknown_words_with_llm`. -/
theorem llmBatches_batches_of_23 (ws : List String) (hlen : ws.length = 23) :
    (llmBatches ws).length = 3 ∧
    (llmBatches ws).map List.length = [10, 10, 3] ∧
    (llmBatches ws).flatten = ws ∧
    (ws.Nodup → (llmBatches ws).Pairwise List.Disjoint) := by
  have hne : ws ≠ [] := by
    intro h
    rw [h] at hlen
    simp at hlen
  have h10 : (ws.drop 10).length = 13 := by simp [List.length_drop, hlen]
  have h20 : ((ws.drop 10).drop 10).length = 3 := by simp [List.length_drop, hlen]
  have hne2 : ws.drop 10 ≠ [] := by
    intro h
    rw [h] at h10
    simp at h10
  have hne3 : (ws.drop 10).drop 10 ≠ [] := by
    intro h
    rw [h] at h20
    simp at h20
  have e4 : ((ws.drop 10).drop 10).drop 10 = [] := by
    apply List.length_eq_zero.mp
    simp [List.length_drop, hlen]
  have htk : ((ws.drop 10).drop 10).take 10 = (ws.drop 10).drop 10 :=
    List.take_of_length_le (by rw [h20]; omega)
  have hb : llmBatches ws =
      [ws.take 10, (ws.drop 10).take 10, (ws.drop 10).drop 10] := by
    rw [llmBatches_cons ws hne, llmBatches_cons _ hne2, llmBatches_cons _ hne3,
      e4, llmBatches_nil, htk]
  have l1 : (ws.take 10).length = 10 := by simp [List.length_take, hlen]
  have l2 : ((ws.drop 10).take 10).length = 10 := by
    simp [List.length_take, List.length_drop, hlen]
  have hflat : (llmBatches ws).flatten = ws := by
    rw [hb]
    simp only [List.flatten_cons, List.flatten_nil, List.append_nil]
    rw [List.take_append_drop, List.take_append_drop]
  refine ⟨by rw [hb]; rfl, by rw [hb]; simp [l1, l2]; omega, hflat, ?_⟩
  intro hnd
  have hfn : (llmBatches ws).flatten.Nodup := by rw [hflat]; exact hnd
  exact (List.nodup_flatten.mp hfn).2

/-- Witness for C7 at a concrete list of 23 distinct words. -/
theorem llmBatches_batches_of_23_witness :
    (llmBatches c7Words).map List.length = [10, 10, 3] ∧
    (llmBatches c7Words).flatten = c7Words ∧
    (llmBatches c7Words).Pairwise List.Disjoint :=
  ⟨(llmBatches_batches_of_23 c7Words (by decide)).2.1,
   (llmBatches_batches_of_23 c7Words (by decide)).2.2.1,
   (llmBatches_batches_of_23 c7Words (by decide)).2.2.2 (by decide)⟩

/-! ## C10: tokens of `extract_words` -/

theorem splitRunsGo_fuel :
    ∀ (f1 f2 : Nat) (cs : List Char), cs.length ≤ f1 → cs.length ≤ f2 →
      splitRunsGo f1 cs = splitRunsGo f2 cs := by
  intro f1
  induction f1 with
  | zero =>
    intro f2 cs h1 _
    have : cs = [] := List.length_eq_zero.mp (Nat.le_zero.mp h1)
    subst this
    cases f2 <;> rfl
  | succ f1 ih =>
    intro f2 cs h1 h2
    cases cs with
    | nil => cases f2 <;> rfl
    | cons c cs' =>
      cases f2 with
      | zero => simp at h2
      | succ f2' =>
        simp only [splitRunsGo]
        have hrun : (cs'.takeWhile
            (fun x => isWordCharPy x == isWordCharPy c)).length ≤ cs'.length :=
          (List.takeWhile_sublist _).length_le
        have hrest : (cs'.drop (cs'.takeWhile
            (fun x => isWordCharPy x == isWordCharPy c)).length).length ≤ cs'.length := by
          simp only [List.length_drop]
          omega
        have hc1 : cs'.length ≤ f1 := by
          simp only [List.length_cons] at h1
          omega
        have hc2 : cs'.length ≤ f2' := by
          simp only [List.length_cons] at h2
          omega
        rw [ih _ _ (le_trans hrest hc1) (le_trans hrest hc2)]

theorem splitRuns_nil : splitRuns [] = [] := rfl

theorem splitRuns_cons (c : Char) (cs' : List Char) :
    splitRuns (c :: cs') =
      (isWordCharPy c, c :: cs'.takeWhile (fun x => isWordCharPy x == isWordCharPy c)) ::
        splitRuns (cs'.drop
          (cs'.takeWhile (fun x => isWordCharPy x == isWordCharPy c)).length) := by
  show splitRunsGo (c :: cs').length (c :: cs') = _
  simp only [List.length_cons, splitRunsGo, splitRuns]
  congr 1
  apply splitRunsGo_fuel
  · simp only [List.length_drop]
    omega
  · exact le_refl _

theorem splitRuns_seg_ne_nil :
    ∀ (fuel : Nat) (cs : List Char) (seg : Bool × List Char),
      seg ∈ splitRunsGo fuel cs → seg.2 ≠ [] := by
  intro fuel
  induction fuel with
  | zero =>
    intro cs seg h
    cases cs <;> simp [splitRunsGo] at h
  | succ fuel ih =>
    intro cs seg h
    cases cs with
    | nil => simp [splitRunsGo] at h
    | cons c cs' =>
      simp only [splitRunsGo] at h
      rcases List.mem_cons.mp h with he | hm
      · subst he
        simp
      · exact ih _ seg hm

/-- C10 (amended): every token produced by `extract_words` is a non-empty
string of ASCII letters, and so contains no apostrophe, hyphen or period — a
contraction like "don't" or a hyphenated compound like "self-driving" is never
produced as a single token, and the possessive-stripping, hyphen-splitting and
abbreviation-with-period rules have nothing to match on such tokens. (The
contraction and bare-acronym lookups can still fire on letter-only keys such
as "gonna", and digits/underscores do not merely separate — see the
counterexample.) -/
theorem extract_words_tokens_letters (text : String) (tok : String) :
    (tok ∈ extract_words text →
      tok ≠ "" ∧ tok.data.all isAsciiLetter = true ∧
      '\'' ∉ tok.data ∧ '-' ∉ tok.data ∧ '.' ∉ tok.data) ∧
    "don't" ∉ extract_words text ∧ "self-driving" ∉ extract_words text := by
  have main : ∀ t : String, t ∈ extract_words text →
      t ≠ "" ∧ t.data.all isAsciiLetter = true := by
    intro t ht
    rw [extract_words, List.mem_filterMap] at ht
    obtain ⟨seg, hseg, hf⟩ := ht
    by_cases hc : seg.1 && seg.2.all isAsciiLetter
    · rw [if_pos hc] at hf
      injection hf with hf
      have hdata : t.data = seg.2 := by rw [← hf]
      refine ⟨?_, ?_⟩
      · intro he
        have h2 : seg.2 = [] := by
          rw [← hdata, he]
        exact splitRuns_seg_ne_nil _ _ seg hseg h2
      · rw [hdata]
        exact ((Bool.and_eq_true _ _).mp hc).2
    · rw [if_neg hc] at hf
      exact absurd hf (by simp)
  have noChar : ∀ t : String, t.data.all isAsciiLetter = true →
      ∀ c : Char, isAsciiLetter c = false → c ∉ t.data := by
    intro t hall c hc hmem
    have := List.all_eq_true.mp hall c hmem
    rw [hc] at this
    exact absurd this (by simp)
  refine ⟨?_, fun h => absurd (main _ h).2 (by decide),
    fun h => absurd (main _ h).2 (by decide)⟩
  intro h
  obtain ⟨hne, hall⟩ := main tok h
  exact ⟨hne, hall, noChar tok hall '\'' (by decide),
    noChar tok hall '-' (by decide), noChar tok hall '.' (by decide)⟩

/-- Witness for C10's amended theorem at a concrete text and token. -/
theorem extract_words_tokens_letters_witness :
    ("don" : String) ≠ "" ∧ "don".data.all isAsciiLetter = true ∧
    '\'' ∉ "don".data ∧ '-' ∉ "don".data ∧ '.' ∉ "don".data :=
  (extract_words_tokens_letters "don't self-driving" "don").1 (by decide)

/-- C10 (counterexample): two parts of the claim fail. Digits do not act as
separators: under the claim's reading (split on non-letters) "l8r" would yield
the tokens "l" and "r", but `extract_words` yields nothing, because `\b` fails
between a letter and a digit. And the contraction rule is exercised on tokens
from this path: "gonna" is a letter-only contraction key, comes through
`extract_words` as a single token, and its normalization takes the contraction
branch ("gonna" → "going to"). -/
theorem extract_words_digits_cex :
    extract_words "l8r" = [] ∧
    extractWordsSpecSeparators "l8r" = ["l", "r"] ∧
    extract_words "l8r" ≠ extractWordsSpecSeparators "l8r" ∧
    extract_words "gonna" = ["gonna"] ∧
    applyContraction "gonna" = "going to" ∧
    normalize_word "gonna" = "going to" := by
  refine ⟨by decide, by decide, by decide, by decide, by decide, by decide⟩

/-! ## Conditional-upsert fold lemmas (for C5, C6) -/

theorem dictGet_foldl_setIf {β α : Type} (cond : β → Bool) (key : β → String)
    (val : β → α) (bs : List β) (d : List (String × α)) (k : String) :
    dictGet (bs.foldl
        (fun d b => if cond b then dictSet d (key b) (val b) else d) d) k =
      (lastWriteIf cond key val bs k).or (dictGet d k) := by
  induction bs generalizing d with
  | nil => rfl
  | cons b bs ih =>
    simp only [List.foldl_cons, lastWriteIf, ih]
    cases hlw : lastWriteIf cond key val bs k with
    | some v => simp [Option.or]
    | none =>
      simp only [Option.or]
      by_cases hc : cond b = true
      · rw [if_pos hc, dictGet_dictSet]
        by_cases hk : key b = k
        · simp [hc, hk]
        · simp [hc, hk]
      · have hc' : cond b = false := by
          cases h : cond b
          · rfl
          · exact absurd h hc
        rw [if_neg (by simp [hc'])]
        rw [if_neg (by simp [hc'])]

theorem lastWriteIf_eq_none {β α : Type} (cond : β → Bool) (key : β → String)
    (val : β → α) (bs : List β) (k : String)
    (h : ∀ b ∈ bs, ¬(cond b = true ∧ key b = k)) :
    lastWriteIf cond key val bs k = none := by
  induction bs with
  | nil => rfl
  | cons b bs ih =>
    simp only [lastWriteIf]
    rw [ih (fun b' hb' => h b' (List.mem_cons_of_mem _ hb'))]
    rw [if_neg (h b (List.mem_cons_self _ _))]
    rfl

theorem lastWriteIf_of_unique {β α : Type} (cond : β → Bool) (key : β → String)
    (val : β → α) (bs : List β) (k : String) (b0 : β)
    (hmem : b0 ∈ bs) (hnd : (bs.map key).Nodup)
    (hc : cond b0 = true) (hk : key b0 = k) :
    lastWriteIf cond key val bs k = some (val b0) := by
  induction bs with
  | nil => simp at hmem
  | cons b bs ih =>
    simp only [lastWriteIf]
    have hnd' : (∀ x ∈ bs, ¬key x = key b) ∧ (bs.map key).Nodup := by
      simpa using hnd
    rcases List.mem_cons.mp hmem with he | hm
    · subst he
      have hnone : lastWriteIf cond key val bs k = none := by
        apply lastWriteIf_eq_none
        intro b' hb' hcb'
        exact hnd'.1 b' hb' (hcb'.2.trans hk.symm)
      rw [hnone, if_pos ⟨hc, hk⟩]
      rfl
    · rw [ih hm hnd'.2]
      rfl

/-! ## C5: batch-level failure defaults -/

/-- C5: when the remote call raises, when the response contains no `{...}`
block, or when the extracted block fails to parse, every word of the batch is
mapped to `{word.lower(), level C1, source default}`; the failure is never
propagated — the batch function returns the default map to its caller. -/
theorem classify_word_batch_failure_defaults (words : List String)
    (parse : String → Except Unit (List (String × LlmWordData))) :
    (∀ e : Unit, classify_word_batch words (.error e) parse = defaultC1Batch words) ∧
    (∀ resp : String, extractJsonBlock (stripNewlines resp) = none →
      classify_word_batch words (.ok resp) parse = defaultC1Batch words) ∧
    (∀ resp j : String, extractJsonBlock (stripNewlines resp) = some j →
      parse j = .error () →
      classify_word_batch words (.ok resp) parse = defaultC1Batch words) ∧
    (∀ w : String, w ∈ words →
      dictGet (defaultC1Batch words) (lowerStr w) =
        some ⟨lowerStr w, "C1", none, "default"⟩) := by
  refine ⟨fun e => rfl, ?_, ?_, ?_⟩
  · intro resp h
    simp only [classify_word_batch, h]
  · intro resp j hj hp
    simp only [classify_word_batch, hj, hp]
  · intro w hw
    have hfold : dictGet (defaultC1Batch words) (lowerStr w) =
        (lastWrite (fun w' : String => lowerStr w')
          (fun w' => (⟨lowerStr w', "C1", none, "default"⟩ : ClassifiedWord))
          words (lowerStr w)).or (dictGet [] (lowerStr w)) :=
      dictGet_foldl_set _ _ words [] (lowerStr w)
    have hsome := lastWrite_isSome_of_mem (fun w' : String => lowerStr w')
      (fun w' => (⟨lowerStr w', "C1", none, "default"⟩ : ClassifiedWord))
      words (lowerStr w) w hw rfl
    obtain ⟨v, hv⟩ := Option.isSome_iff_exists.mp hsome
    have hveq : v = (⟨lowerStr w, "C1", none, "default"⟩ : ClassifiedWord) :=
      lastWrite_comp_key (fun w' : String => lowerStr w')
        (fun k => (⟨k, "C1", none, "default"⟩ : ClassifiedWord))
        words (lowerStr w) v hv
    rw [hfold, hv, hveq]
    rfl

/-- Witness for C5 at a concrete batch whose response has no JSON block. -/
theorem classify_word_batch_failure_defaults_witness :
    classify_word_batch ["foo"] (.ok "no block here") (fun _ => .ok []) =
      defaultC1Batch ["foo"] ∧
    dictGet (defaultC1Batch ["foo"]) (lowerStr "foo") =
      some ⟨lowerStr "foo", "C1", none, "default"⟩ :=
  ⟨(classify_word_batch_failure_defaults ["foo"] (fun _ => .ok [])).2.1
      "no block here" (by decide),
   (classify_word_batch_failure_defaults ["foo"] (fun _ => .ok [])).2.2.2
      "foo" (by decide)⟩

/-! ## C6: per-word degradation of unrecognized levels -/

/-- C6 (counterexample): in the concrete scenario `c6Out`, the word with the
unrecognized level "Z9" receives source `"llm"` (not `"default"`) and
explanation "Level not recognized, defaulting to C1" (not
"level not recognized"), refuting the claimed entry
`{level: C1, source: default, explanation: "level not recognized"}`. -/
theorem classify_word_batch_unrecognized_source_cex :
    (dictGet c6Out "alpha").map ClassifiedWord.source = some "llm" ∧
    (dictGet c6Out "alpha").map ClassifiedWord.source ≠ some "default" ∧
    (dictGet c6Out "alpha").map ClassifiedWord.explanation =
      some (some "Level not recognized, defaulting to C1") ∧
    (dictGet c6Out "alpha").map ClassifiedWord.level = some "C1" ∧
    (dictGet c6Out "beta").map ClassifiedWord.level = some "B1" := by
  refine ⟨by decide, by decide, by decide, by decide, by decide⟩

/-- C6 (amended): within a successfully parsed response, a word whose level
string is not among A1..C2 (case-insensitively) individually receives
`{level C1, explanation "Level not recognized, defaulting to C1", source llm}`,
while a word with a recognized level keeps its reported level (upper-cased)
with source `llm` — degradation is per word, not per batch. -/
theorem classify_word_batch_per_word_default (words : List String)
    (parse : String → Except Unit (List (String × LlmWordData)))
    (resp j : String) (parsed : List (String × LlmWordData))
    (hj : extractJsonBlock (stripNewlines resp) = some j)
    (hp : parse j = .ok parsed)
    (hnd : (parsed.map (fun p => lowerStr p.1)).Nodup)
    (w : String) (d : LlmWordData)
    (hmem : (w, d) ∈ parsed)
    (hw : (words.map lowerStr).contains (lowerStr w) = true) :
    dictGet (classify_word_batch words (.ok resp) parse) (lowerStr w) =
      some (formatOneWord w d) ∧
    (validCefrLevels.contains (lowerStr (d.level.getD "")) = false →
      formatOneWord w d =
        ⟨lowerStr w, "C1", some "Level not recognized, defaulting to C1", "llm"⟩) ∧
    (validCefrLevels.contains (lowerStr (d.level.getD "")) = true →
      formatOneWord w d =
        ⟨lowerStr w, upperStr (d.level.getD ""),
          some (d.explanation.getD ""), "llm"⟩) := by
  refine ⟨?_, ?_, ?_⟩
  · simp only [classify_word_batch, hj, hp]
    have hfold : dictGet (formatBatchResults words parsed) (lowerStr w) =
        (lastWriteIf
          (fun p : String × LlmWordData =>
            (words.map lowerStr).contains (lowerStr p.1))
          (fun p => lowerStr p.1) (fun p => formatOneWord p.1 p.2)
          parsed (lowerStr w)).or (dictGet [] (lowerStr w)) :=
      dictGet_foldl_setIf _ _ _ parsed [] (lowerStr w)
    have hlast := lastWriteIf_of_unique
      (fun p : String × LlmWordData =>
        (words.map lowerStr).contains (lowerStr p.1))
      (fun p => lowerStr p.1) (fun p => formatOneWord p.1 p.2)
      parsed (lowerStr w) (w, d) hmem hnd hw rfl
    rw [hfold, hlast]
    rfl
  · intro h
    simp only [formatOneWord]
    rw [if_neg (by simp only [h]; exact Bool.false_ne_true)]
  · intro h
    simp only [formatOneWord]
    rw [if_pos h]

/-- Witness for C6's amended theorem on the concrete scenario `c6Out`. -/
theorem classify_word_batch_per_word_default_witness :
    dictGet (classify_word_batch c6Words (.ok "\x7bx\x7d") c6Parse)
        (lowerStr "alpha") =
      some (formatOneWord "alpha" ⟨some "Z9", some "strange"⟩) :=
  (classify_word_batch_per_word_default c6Words c6Parse "\x7bx\x7d" "\x7bx\x7d"
    c6Parsed (by decide) rfl (by decide) "alpha" ⟨some "Z9", some "strange"⟩
    (by decide) (by decide)).1

/-! ## C8: save_words_to_user_file merge semantics -/

/-- C8: the save operation treats a missing and a corrupt persisted file as
the empty starting set; it returns exactly the write outcome (success or
failure, never an exception); on success it writes the full merged set; and
the merged dict is keyed by the lower-cased word with the new entries
overwriting per key, last write winning, falling back to the persisted
entry. -/
theorem save_words_to_user_file_semantics
    (wordsData : List (String × LevelEntry)) (writeOk : Bool) :
    save_words_to_user_file .missing wordsData writeOk =
      save_words_to_user_file (.content []) wordsData writeOk ∧
    save_words_to_user_file .corrupt wordsData writeOk =
      save_words_to_user_file (.content []) wordsData writeOk ∧
    (∀ file, (save_words_to_user_file file wordsData writeOk).1 = writeOk) ∧
    (∀ file, save_words_to_user_file file wordsData true =
      (true, some ((mergedUserDict file wordsData).map (fun p => p.2)))) ∧
    (∀ (items : List (Option LevelEntry)) (k : String),
      dictGet (mergedUserDict (.content items) wordsData) k =
        (lastWrite (fun p : String × LevelEntry => lowerStr p.1)
          (fun p => p.2) wordsData k).or
          (dictGet (buildExistingDict items) k)) := by
  refine ⟨rfl, rfl, ?_, fun file => rfl, ?_⟩
  · intro file
    simp only [save_words_to_user_file]
    cases writeOk <;> rfl
  · intro items k
    exact dictGet_foldl_set (fun p : String × LevelEntry => lowerStr p.1)
      (fun p => p.2) wordsData (buildExistingDict items) k

/-! ## C4: priority invariant of the vocabulary index -/

theorem dictHasKey_dictSet_ne {α : Type} (d : List (String × α))
    (k' k : String) (v : α) (hne : k ≠ k') :
    dictHasKey (dictSet d k' v) k = dictHasKey d k := by
  induction d with
  | nil =>
    simp [dictSet, dictHasKey]
    exact fun h => hne h.symm
  | cons p rest ih =>
    obtain ⟨pk, pv⟩ := p
    simp only [dictSet]
    by_cases h : pk = k'
    · rw [if_pos h]
      simp [dictHasKey, List.any_cons]
    · rw [if_neg h]
      simp only [dictHasKey, List.any_cons] at ih ⊢
      rw [ih]

theorem dictGet_dictSet_fresh {α : Type} (d : List (String × α))
    (k' k : String) (v newV : α) (hne : dictHasKey d k' = false)
    (hk : dictGet d k = some v) : dictGet (dictSet d k' newV) k = some v := by
  by_cases hkk : k' = k
  · subst hkk
    rw [dictHasKey_of_get d k' v hk] at hne
    exact absurd hne (by simp)
  · rw [dictGet_dictSet, if_neg hkk]
    exact hk

theorem word_exists_false_parts (word : String) (wl : WordLists)
    (h : word_exists_in_any_form word wl = false) :
    dictHasKey wl.word_map (lowerStr word) = false ∧
    dictHasKey wl.word_map (normalize_word word) = false := by
  unfold word_exists_in_any_form at h
  by_cases h1 : dictHasKey wl.word_map (lowerStr word) = true
  · rw [if_pos h1] at h
    exact absurd h (by simp)
  · rw [if_neg h1] at h
    by_cases h2 : dictHasKey wl.word_map (normalize_word word) = true
    · rw [if_pos h2] at h
      exact absurd h (by simp)
    · refine ⟨?_, ?_⟩
      · cases hb : dictHasKey wl.word_map (lowerStr word)
        · rfl
        · exact absurd hb h1
      · cases hb : dictHasKey wl.word_map (normalize_word word)
        · rfl
        · exact absurd hb h2

theorem add_word_forms_preserves (word : String) (value : LevelEntry)
    (wl : WordLists) (k : String) (e : LevelEntry)
    (hl : dictHasKey wl.word_map (lowerStr word) = false)
    (hn : dictHasKey wl.word_map (normalize_word word) = false)
    (hk : dictGet wl.word_map k = some e) :
    dictGet (add_word_forms_to_map word value wl).word_map k = some e := by
  unfold add_word_forms_to_map
  simp only []
  have h1 : dictGet (dictSet wl.word_map (lowerStr word) value) k = some e :=
    dictGet_dictSet_fresh _ _ _ _ _ hl hk
  by_cases hc : normalize_word word ≠ "" ∧ normalize_word word ≠ lowerStr word
  · rw [if_pos hc]
    apply dictGet_dictSet_fresh _ _ _ _ _ _ h1
    rw [dictHasKey_dictSet_ne _ _ _ _ hc.2]
    exact hn
  · rw [if_neg hc]
    exact h1

theorem load_epv_row_preserves (wl : WordLists) (row : List String)
    (k : String) (e : LevelEntry) (h : dictGet wl.word_map k = some e) :
    dictGet (load_epv_row wl row).word_map k = some e := by
  cases row with
  | nil => exact h
  | cons r0 rest =>
    cases rest with
    | nil => exact h
    | cons r1 rest2 =>
      unfold load_epv_row
      simp only []
      by_cases h1 : (!(hasCefrKey wl (lowerStr (pyStrip r1)))) = true
      · rw [if_pos h1]
        exact h
      · rw [if_neg h1]
        by_cases h2 :
            word_exists_in_any_form (lowerStr (pyStrip r0)) wl = true
        · rw [if_pos h2]
          exact h
        · rw [if_neg h2]
          have hf : word_exists_in_any_form (lowerStr (pyStrip r0)) wl = false := by
            cases hb : word_exists_in_any_form (lowerStr (pyStrip r0)) wl
            · rfl
            · exact absurd hb h2
          obtain ⟨e1, e2⟩ := word_exists_false_parts _ wl hf
          exact add_word_forms_preserves _ _ _ k e e1 e2 h

/-- C4 (amended): merging the secondary (EPV) source never changes any entry
already present in the index under any key — in particular every word loaded
from the primary source keeps its `LevelEntry`. The user/LLM-learned source,
however, is merged *without* the exists-in-any-form check and does overwrite
(see the counterexample). -/
theorem load_epv_never_overwrites (rows : List (List String)) (wl : WordLists)
    (k : String) (e : LevelEntry) (h : dictGet wl.word_map k = some e) :
    dictGet (load_epv_words rows wl).word_map k = some e := by
  induction rows generalizing wl with
  | nil => exact h
  | cons row rows ih =>
    exact ih (load_epv_row wl row) (load_epv_row_preserves wl row k e h)

/-- Witness for C4's amended theorem: the primary entry for "hello" survives
an EPV merge. -/
theorem load_epv_never_overwrites_witness :
    dictGet (load_epv_words [["unique", "b1"], ["hello", "a1"]] c4Primary).word_map
        "hello" = some ⟨"hello", "A1", "oxford", none⟩ :=
  load_epv_never_overwrites [["unique", "b1"], ["hello", "a1"]] c4Primary
    "hello" ⟨"hello", "A1", "oxford", none⟩ (by decide)

/-- C4 (counterexample): `load_user_words` overwrites a key written by the
primary source — the claim's "lower-priority source never overwrites" fails
for the user/LLM-learned source. -/
theorem load_user_words_overwrites_cex :
    dictGet c4Primary.word_map "hello" = some ⟨"hello", "A1", "oxford", none⟩ ∧
    dictGet c4AfterUser.word_map "hello" = some ⟨"hello", "C2", "llm", none⟩ ∧
    dictGet c4AfterUser.word_map "hello" ≠ dictGet c4Primary.word_map "hello" := by
  refine ⟨by decide, by decide, by decide⟩

/-! ## C1: the resolve fallback chain -/

/-- C1: `get_word_level` checks the exact normalized form, then the lemma,
stem and token forms, in that order, first hit winning; when every lookup
misses it returns the `{level: "unknown", needs_llm_classification: True}`
result instead of raising. -/
theorem get_word_level_chain (m : List (String × LevelEntry))
    (p : String → String → String) (w : String) :
    (dictGet m (normalize_word w) = none →
     dictGet m (p (normalize_word w) "lemma") = none →
     dictGet m (p (normalize_word w) "stem") = none →
     dictGet m (p (normalize_word w) "token") = none →
     get_word_level m p w = .unknownNeedsLlm w ∧
     (get_word_level m p w).level = "unknown" ∧
     (get_word_level m p w).needsLlmClassification = true) ∧
    (∀ e, dictGet m (normalize_word w) = some e →
      get_word_level m p w = .entry e) ∧
    (∀ e, dictGet m (normalize_word w) = none →
      dictGet m (p (normalize_word w) "lemma") = some e →
      get_word_level m p w = .entry e) ∧
    (∀ e, dictGet m (normalize_word w) = none →
      dictGet m (p (normalize_word w) "lemma") = none →
      dictGet m (p (normalize_word w) "stem") = some e →
      get_word_level m p w = .entry e) ∧
    (∀ e, dictGet m (normalize_word w) = none →
      dictGet m (p (normalize_word w) "lemma") = none →
      dictGet m (p (normalize_word w) "stem") = none →
      dictGet m (p (normalize_word w) "token") = some e →
      get_word_level m p w = .entry e) := by
  refine ⟨?_, ?_, ?_, ?_, ?_⟩
  · intro h1 h2 h3 h4
    have hres : get_word_level m p w = .unknownNeedsLlm w := by
      simp only [get_word_level, h1, h2, h3, h4]
    exact ⟨hres, by rw [hres]; rfl, by rw [hres]; rfl⟩
  · intro e h1
    simp only [get_word_level, h1]
  · intro e h1 h2
    simp only [get_word_level, h1, h2]
  · intro e h1 h2 h3
    simp only [get_word_level, h1, h2, h3]
  · intro e h1 h2 h3 h4
    simp only [get_word_level, h1, h2, h3, h4]

/-- Witness for C1 with an empty index and the identity capability. -/
theorem get_word_level_chain_witness :
    get_word_level [] (fun s _ => s) "xylophone" =
      .unknownNeedsLlm "xylophone" ∧
    (get_word_level [] (fun s _ => s) "xylophone").level = "unknown" ∧
    (get_word_level [] (fun s _ => s) "xylophone").needsLlmClassification = true :=
  (get_word_level_chain [] (fun s _ => s) "xylophone").1 rfl rfl rfl rfl

/-! ## C9: whole-word rendering, longest first -/

theorem mem_insertLenDesc (w x : String) (l : List String)
    (h : x ∈ insertLenDesc w l) : x = w ∨ x ∈ l := by
  induction l with
  | nil =>
    simp [insertLenDesc] at h
    exact Or.inl h
  | cons y ys ih =>
    simp only [insertLenDesc] at h
    by_cases hlt : w.length < y.length
    · rw [if_pos hlt] at h
      rcases List.mem_cons.mp h with he | hm
      · exact Or.inr (he ▸ List.mem_cons_self _ _)
      · rcases ih hm with he | hm2
        · exact Or.inl he
        · exact Or.inr (List.mem_cons_of_mem _ hm2)
    · rw [if_neg hlt] at h
      rcases List.mem_cons.mp h with he | hm
      · exact Or.inl he
      · exact Or.inr hm

theorem insertLenDesc_pairwise (w : String) (l : List String)
    (h : l.Pairwise (fun a b => b.length ≤ a.length)) :
    (insertLenDesc w l).Pairwise (fun a b => b.length ≤ a.length) := by
  induction l with
  | nil => simp [insertLenDesc]
  | cons y ys ih =>
    obtain ⟨hy, hys⟩ := List.pairwise_cons.mp h
    simp only [insertLenDesc]
    by_cases hlt : w.length < y.length
    · rw [if_pos hlt]
      refine List.pairwise_cons.mpr ⟨?_, ih hys⟩
      intro b hb
      rcases mem_insertLenDesc w b ys hb with he | hm
      · exact he ▸ Nat.le_of_lt hlt
      · exact hy b hm
    · rw [if_neg hlt]
      refine List.pairwise_cons.mpr ⟨?_, h⟩
      intro b hb
      rcases List.mem_cons.mp hb with he | hm
      · exact he ▸ Nat.le_of_not_lt hlt
      · exact Nat.le_trans (hy b hm) (Nat.le_of_not_lt hlt)

theorem sortLenDesc_pairwise (l : List String) :
    (sortLenDesc l).Pairwise (fun a b => b.length ≤ a.length) := by
  induction l with
  | nil => simp [sortLenDesc]
  | cons w ws ih => exact insertLenDesc_pairwise w (sortLenDesc ws) ih

/-- C9: the rendering processes the words in decreasing length order (the
fold list is sorted longest-first); each replacement step touches exactly the
maximal word-character runs equal to the word case-insensitively (whole-word
matching): any other run — in particular a longer word containing the current
word as a proper substring — passes through unchanged, and a matching run is
wrapped with the word's span. -/
theorem create_highlighted_text_spec :
    (∀ wordLevels : List (String × String),
      (sortLenDesc (wordLevels.map (fun p => p.1))).Pairwise
        (fun a b => b.length ≤ a.length)) ∧
    (∀ (text : String) (wordLevels : List (String × String)),
      create_highlighted_text text wordLevels =
        (sortLenDesc (wordLevels.map (fun p => p.1))).foldl
          (fun t w => replaceWholeWord w (spanFor wordLevels w) t) text) ∧
    (∀ (word repl : String) (seg : Bool × List Char),
      seg.1 = false ∨ String.mk (seg.2.map Char.toLower) ≠ lowerStr word →
      replaceSeg word repl seg = seg.2) ∧
    (∀ (word repl : String) (seg : Bool × List Char),
      word.data.length < seg.2.length → replaceSeg word repl seg = seg.2) ∧
    (∀ (word repl : String) (seg : Bool × List Char),
      seg.1 = true → String.mk (seg.2.map Char.toLower) = lowerStr word →
      replaceSeg word repl seg = repl.data) := by
  refine ⟨fun wl => sortLenDesc_pairwise _, fun text wl => rfl, ?_, ?_, ?_⟩
  · intro word repl seg hor
    unfold replaceSeg
    rcases hor with h | h
    · rw [if_neg]
      intro hc
      rw [h] at hc
      simp at hc
    · rw [if_neg]
      intro hc
      exact h (eq_of_beq ((Bool.and_eq_true _ _).mp hc).2)
  · intro word repl seg hlen
    unfold replaceSeg
    by_cases hc : (seg.1 && (String.mk (seg.2.map Char.toLower) == lowerStr word)) = true
    · exfalso
      have heq : String.mk (seg.2.map Char.toLower) = lowerStr word :=
        eq_of_beq ((Bool.and_eq_true _ _).mp hc).2
      have hlen2 := congrArg (fun s : String => s.data.length) heq
      simp only [lowerStr, List.length_map] at hlen2
      omega
    · rw [if_neg hc]
  · intro word repl seg h1 h2
    unfold replaceSeg
    rw [if_pos (by rw [h1, h2]; simp)]

/-- Witness for C9: a longer word-run containing the word is untouched, the
exact run is replaced. -/
theorem create_highlighted_text_spec_witness :
    replaceSeg "under" "X" (true, "understand".data) = "understand".data ∧
    replaceSeg "under" "X" (true, "under".data) = "X".data :=
  ⟨create_highlighted_text_spec.2.2.2.1 "under" "X" (true, "understand".data)
    (by decide),
   create_highlighted_text_spec.2.2.2.2 "under" "X" (true, "under".data)
    rfl (by decide)⟩

end ArticleDryer
